import Mathlib

/-!
Shallow embedding of the ray-tracer math kernel from the Rust sources
under src/: tuple algebra (src/tuple.rs), 2x2/3x3/4x4 matrices
(src/matrix.rs), rays (src/ray.rs), spheres and intersections
(src/sphere.rs), point lights (src/lights.rs), the Phong lighting model
(src/materials.rs) and the world shading pipeline (src/world.rs).

Modelling conventions:
* f64 values are modelled as real numbers; Rust panics
  (Option::expect / Option::unwrap) are modelled by Option-valued
  results where the panic can actually fire.
* This source snapshot is not fully consistent across files:
  materials.rs reads the light intensity componentwise via .x/.y/.z and
  its tests construct PointLight with Tuple4 intensities, while
  lights.rs declares the intensity as a 3-field Color and world.rs
  passes Color values.  Colors are embedded uniformly as Tuple4 (the
  type Material::lighting actually returns), with Color::new(r, g, b)
  rendered as Tuple4::point r g b; this identifies the rgb components
  of Color with the xyz components of Tuple4, field for field.
* SphereIntersections::append and SphereIntersections::sort_by_t_ascending
  are called by world.rs but absent from src/sphere.rs; the sort is
  modelled from the spec (sort ascending by t), see sortByT below.
-/

noncomputable section

/-- Embedding of Tuple4 from src/tuple.rs: four f64 components. -/
@[ext]
structure Tuple4 where
  x : ℝ
  y : ℝ
  z : ℝ
  w : ℝ

namespace Tuple4

/-- Tuple4::point: a tuple with w = 1. -/
def point (a b c : ℝ) : Tuple4 := ⟨a, b, c, 1⟩

/-- Tuple4::vector: a tuple with w = 0. -/
def vector (a b c : ℝ) : Tuple4 := ⟨a, b, c, 0⟩

/-- impl Add for Tuple4: componentwise addition. -/
def add (t u : Tuple4) : Tuple4 := ⟨t.x + u.x, t.y + u.y, t.z + u.z, t.w + u.w⟩

/-- impl Sub for Tuple4: componentwise subtraction. -/
def sub (t u : Tuple4) : Tuple4 := ⟨t.x - u.x, t.y - u.y, t.z - u.z, t.w - u.w⟩

/-- impl Mul of Tuple4 by an f64 scalar (both Tuple4 * f64 and f64 * Tuple4
in the source reduce to this componentwise product). -/
def mulScalar (t : Tuple4) (s : ℝ) : Tuple4 := ⟨t.x * s, t.y * s, t.z * s, t.w * s⟩

/-- impl Div of Tuple4 by an f64 scalar: the source computes
self * (1.0 / other). -/
def divScalar (t : Tuple4) (s : ℝ) : Tuple4 := t.mulScalar (1 / s)

/-- Tuple4::dot. -/
def dot (t u : Tuple4) : ℝ := t.x * u.x + t.y * u.y + t.z * u.z + t.w * u.w

/-- Tuple4::magnitude: sqrt of the dot product with itself. -/
def magnitude (t : Tuple4) : ℝ := Real.sqrt (t.dot t)

/-- Tuple4::normalize: unguarded division by the magnitude. -/
def normalize (t : Tuple4) : Tuple4 := t.divScalar t.magnitude

/-- Modelled from the spec: Tuple4::reflect is called by
Material::lighting but its definition is missing from this src/
snapshot; the spec gives reflect(v, n) = v - 2*dot(v,n)*n. -/
def reflect (v n : Tuple4) : Tuple4 := v.sub (n.mulScalar (2 * v.dot n))

end Tuple4

/-- Embedding of Matrix2x2 from src/matrix.rs; field eYX is the flat
data[Y*2+X] entry (row Y, column X). -/
structure Matrix2x2 where
  e00 : ℝ
  e01 : ℝ
  e10 : ℝ
  e11 : ℝ

/-- Matrix2x2::det: data[0]*data[3] - data[1]*data[2]. -/
def Matrix2x2.det (m : Matrix2x2) : ℝ := m.e00 * m.e11 - m.e01 * m.e10

/-- Embedding of Matrix3x3 from src/matrix.rs; field eYX is the flat
data[Y*3+X] entry (row Y, column X). -/
structure Matrix3x3 where
  e00 : ℝ
  e01 : ℝ
  e02 : ℝ
  e10 : ℝ
  e11 : ℝ
  e12 : ℝ
  e20 : ℝ
  e21 : ℝ
  e22 : ℝ

namespace Matrix3x3

/-- Matrix3x3::get(y, x) = data[y*3 + x].  Out-of-range indices (which
would panic in Rust and are never used by the source) default to 0. -/
def get (m : Matrix3x3) (y x : ℕ) : ℝ :=
  match y, x with
  | 0, 0 => m.e00
  | 0, 1 => m.e01
  | 0, 2 => m.e02
  | 1, 0 => m.e10
  | 1, 1 => m.e11
  | 1, 2 => m.e12
  | 2, 0 => m.e20
  | 2, 1 => m.e21
  | 2, 2 => m.e22
  | _, _ => 0

end Matrix3x3

/-- Index arithmetic for submatrix extraction: the Rust submatrix filters
the row-major entries keeping those with y != row and x != col, in
order; the k-th surviving row (column) index is k when k < row and
k + 1 otherwise. -/
def skipIdx (r i : ℕ) : ℕ := if i < r then i else i + 1

namespace Matrix3x3

/-- Matrix3x3::submatrix(row, col): drop one row and one column, keep the
remaining entries in row-major order. -/
def submatrix (m : Matrix3x3) (row col : ℕ) : Matrix2x2 :=
  ⟨m.get (skipIdx row 0) (skipIdx col 0), m.get (skipIdx row 0) (skipIdx col 1),
   m.get (skipIdx row 1) (skipIdx col 0), m.get (skipIdx row 1) (skipIdx col 1)⟩

/-- Matrix3x3::minor. -/
def minor (m : Matrix3x3) (row col : ℕ) : ℝ := (m.submatrix row col).det

/-- Matrix3x3::cofactor: the minor with the checkerboard sign. -/
def cofactor (m : Matrix3x3) (row col : ℕ) : ℝ :=
  (if (row + col) % 2 = 1 then (-1 : ℝ) else 1) * m.minor row col

/-- Matrix3x3::det: cofactor expansion along row 0. -/
def det (m : Matrix3x3) : ℝ :=
  m.e00 * m.cofactor 0 0 + m.e01 * m.cofactor 0 1 + m.e02 * m.cofactor 0 2

end Matrix3x3

/-- Embedding of Matrix4x4 from src/matrix.rs; field eYX is the flat
data[Y*4+X] entry (row Y, column X). -/
@[ext]
structure Matrix4x4 where
  e00 : ℝ
  e01 : ℝ
  e02 : ℝ
  e03 : ℝ
  e10 : ℝ
  e11 : ℝ
  e12 : ℝ
  e13 : ℝ
  e20 : ℝ
  e21 : ℝ
  e22 : ℝ
  e23 : ℝ
  e30 : ℝ
  e31 : ℝ
  e32 : ℝ
  e33 : ℝ

namespace Matrix4x4

/-- Matrix4x4::PRECISION = 1e-12, the singular-matrix threshold. -/
def PRECISION : ℝ := 1 / 1000000000000

/-- Matrix4x4::get(y, x) = data[y*4 + x].  Out-of-range indices (which
would panic in Rust and are never used by the source) default to 0. -/
def get (m : Matrix4x4) (y x : ℕ) : ℝ :=
  match y, x with
  | 0, 0 => m.e00
  | 0, 1 => m.e01
  | 0, 2 => m.e02
  | 0, 3 => m.e03
  | 1, 0 => m.e10
  | 1, 1 => m.e11
  | 1, 2 => m.e12
  | 1, 3 => m.e13
  | 2, 0 => m.e20
  | 2, 1 => m.e21
  | 2, 2 => m.e22
  | 2, 3 => m.e23
  | 3, 0 => m.e30
  | 3, 1 => m.e31
  | 3, 2 => m.e32
  | 3, 3 => m.e33
  | _, _ => 0

/-- Matrix4x4::zero. -/
def zero : Matrix4x4 := ⟨0, 0, 0, 0, 0, 0, 0, 0, 0, 0, 0, 0, 0, 0, 0, 0⟩

/-- Matrix4x4::identity: zero with data[i*5] = 1 for i in 0..4, i.e. the
unit diagonal. -/
def identity : Matrix4x4 := ⟨1, 0, 0, 0, 0, 1, 0, 0, 0, 0, 1, 0, 0, 0, 0, 1⟩

/-- Matrix4x4::translation: identity with data[3], data[7], data[11]
overwritten. -/
def translation (x y z : ℝ) : Matrix4x4 :=
  { identity with e03 := x, e13 := y, e23 := z }

/-- Matrix4x4::scaling: identity with data[0], data[5], data[10]
overwritten. -/
def scaling (x y z : ℝ) : Matrix4x4 :=
  { identity with e00 := x, e11 := y, e22 := z }

/-- Matrix4x4::rotation_x: identity with data[5], data[6], data[9],
data[10] overwritten. -/
def rotation_x (r : ℝ) : Matrix4x4 :=
  { identity with e11 := Real.cos r, e12 := -Real.sin r, e21 := Real.sin r, e22 := Real.cos r }

/-- Matrix4x4::rotation_y: identity with data[0], data[2], data[8],
data[10] overwritten. -/
def rotation_y (r : ℝ) : Matrix4x4 :=
  { identity with e00 := Real.cos r, e02 := Real.sin r, e20 := -Real.sin r, e22 := Real.cos r }

/-- Matrix4x4::rotation_z: identity with data[0], data[1], data[4],
data[5] overwritten. -/
def rotation_z (r : ℝ) : Matrix4x4 :=
  { identity with e00 := Real.cos r, e01 := -Real.sin r, e10 := Real.sin r, e11 := Real.cos r }

/-- Matrix4x4::shearing: identity with data[1], data[2], data[4],
data[6], data[8], data[9] overwritten. -/
def shearing (xy xz yx yz zx zy : ℝ) : Matrix4x4 :=
  { identity with e01 := xy, e02 := xz, e10 := yx, e12 := yz, e20 := zx, e21 := zy }

/-- Matrix4x4::transpose: the result of the in-place swap loop, i.e. the
usual transpose. -/
def transpose (m : Matrix4x4) : Matrix4x4 :=
  ⟨m.e00, m.e10, m.e20, m.e30,
   m.e01, m.e11, m.e21, m.e31,
   m.e02, m.e12, m.e22, m.e32,
   m.e03, m.e13, m.e23, m.e33⟩

/-- Matrix4x4::submatrix(row, col): drop one row and one column, keep the
remaining entries in row-major order. -/
def submatrix (m : Matrix4x4) (row col : ℕ) : Matrix3x3 :=
  ⟨m.get (skipIdx row 0) (skipIdx col 0), m.get (skipIdx row 0) (skipIdx col 1),
   m.get (skipIdx row 0) (skipIdx col 2),
   m.get (skipIdx row 1) (skipIdx col 0), m.get (skipIdx row 1) (skipIdx col 1),
   m.get (skipIdx row 1) (skipIdx col 2),
   m.get (skipIdx row 2) (skipIdx col 0), m.get (skipIdx row 2) (skipIdx col 1),
   m.get (skipIdx row 2) (skipIdx col 2)⟩

/-- Matrix4x4::minor. -/
def minor (m : Matrix4x4) (row col : ℕ) : ℝ := (m.submatrix row col).det

/-- Matrix4x4::cofactor: the minor with the checkerboard sign. -/
def cofactor (m : Matrix4x4) (row col : ℕ) : ℝ :=
  (if (row + col) % 2 = 1 then (-1 : ℝ) else 1) * m.minor row col

/-- Matrix4x4::det: cofactor expansion along row 0. -/
def det (m : Matrix4x4) : ℝ :=
  m.e00 * m.cofactor 0 0 + m.e01 * m.cofactor 0 1 +
    m.e02 * m.cofactor 0 2 + m.e03 * m.cofactor 0 3

/-- Matrix4x4::inverse: None when the determinant fails the
|det| >= PRECISION test (the source negates that test; over the reals
this is |det| < PRECISION); otherwise the matrix whose flat data at
index x*4+y (row x, column y) is cofactor(y, x) / det. -/
def inverse (m : Matrix4x4) : Option Matrix4x4 :=
  if |m.det| < PRECISION then none
  else
    some ⟨m.cofactor 0 0 / m.det, m.cofactor 1 0 / m.det,
          m.cofactor 2 0 / m.det, m.cofactor 3 0 / m.det,
          m.cofactor 0 1 / m.det, m.cofactor 1 1 / m.det,
          m.cofactor 2 1 / m.det, m.cofactor 3 1 / m.det,
          m.cofactor 0 2 / m.det, m.cofactor 1 2 / m.det,
          m.cofactor 2 2 / m.det, m.cofactor 3 2 / m.det,
          m.cofactor 0 3 / m.det, m.cofactor 1 3 / m.det,
          m.cofactor 2 3 / m.det, m.cofactor 3 3 / m.det⟩

/-- One entry of the matrix product: row y of the left factor dotted with
column x of the right factor. -/
def mulEntry (a b : Matrix4x4) (y x : ℕ) : ℝ :=
  a.get y 0 * b.get 0 x + a.get y 1 * b.get 1 x + a.get y 2 * b.get 2 x + a.get y 3 * b.get 3 x

/-- impl Mul of Matrix4x4 by Matrix4x4: the standard row-by-column
product. -/
def mul (a b : Matrix4x4) : Matrix4x4 :=
  ⟨mulEntry a b 0 0, mulEntry a b 0 1, mulEntry a b 0 2, mulEntry a b 0 3,
   mulEntry a b 1 0, mulEntry a b 1 1, mulEntry a b 1 2, mulEntry a b 1 3,
   mulEntry a b 2 0, mulEntry a b 2 1, mulEntry a b 2 2, mulEntry a b 2 3,
   mulEntry a b 3 0, mulEntry a b 3 1, mulEntry a b 3 2, mulEntry a b 3 3⟩

/-- impl Mul of Matrix4x4 by Tuple4: each output component is one row of
the matrix dotted with the tuple, using all four homogeneous
components. -/
def mulTuple (m : Matrix4x4) (t : Tuple4) : Tuple4 :=
  ⟨m.e00 * t.x + m.e01 * t.y + m.e02 * t.z + m.e03 * t.w,
   m.e10 * t.x + m.e11 * t.y + m.e12 * t.z + m.e13 * t.w,
   m.e20 * t.x + m.e21 * t.y + m.e22 * t.z + m.e23 * t.w,
   m.e30 * t.x + m.e31 * t.y + m.e32 * t.z + m.e33 * t.w⟩

end Matrix4x4

/-- Embedding of Ray from src/ray.rs. -/
structure Ray where
  origin : Tuple4
  direction : Tuple4

namespace Ray

/-- Ray::position(t) = origin + direction * t. -/
def position (r : Ray) (t : ℝ) : Tuple4 := r.origin.add (r.direction.mulScalar t)

/-- Ray::transform: map origin and direction through the matrix. -/
def transform (r : Ray) (m : Matrix4x4) : Ray :=
  ⟨m.mulTuple r.origin, m.mulTuple r.direction⟩

end Ray

/-- Embedding of PointLight from src/lights.rs; the intensity is a Tuple4
color (see the snapshot-reconciliation note at the top of this file). -/
structure PointLight where
  position : Tuple4
  intensity : Tuple4

/-- Embedding of Material from src/materials.rs; the color is a Tuple4. -/
structure Material where
  color : Tuple4
  ambient : ℝ
  diffuse : ℝ
  specular : ℝ
  shininess : ℝ

namespace Material

/-- impl Default for Material. -/
def default : Material := ⟨Tuple4.point 1 1 1, 0.1, 0.9, 0.9, 200⟩

/-- Embedding of Material::lighting from src/materials.rs: the Phong
ambient + diffuse + specular sum, with diffuse and specular zeroed when
the light is behind the surface, and the w component forced to 1 at the
end.  reflect_dot_eye^shininess is f64::powf, modelled by Real.rpow. -/
def lighting (m : Material) (light : PointLight) (point eyev normalv : Tuple4) : Tuple4 :=
  let effective_color := Tuple4.point (m.color.x * light.intensity.x)
      (m.color.y * light.intensity.y) (m.color.z * light.intensity.z)
  let lightv := (light.position.sub point).normalize
  let ambient := effective_color.mulScalar m.ambient
  let light_dot_normal := lightv.dot normalv
  let ds :=
    if light_dot_normal < 0 then
      (Tuple4.point 0 0 0, Tuple4.point 0 0 0)
    else
      let diffuse := (effective_color.mulScalar m.diffuse).mulScalar light_dot_normal
      let reflectv := (lightv.mulScalar (-1)).reflect normalv
      let reflect_dot_eye := reflectv.dot eyev
      if reflect_dot_eye ≤ 0 then
        (diffuse, Tuple4.point 0 0 0)
      else
        (diffuse, (light.intensity.mulScalar m.specular).mulScalar
          (Real.rpow reflect_dot_eye m.shininess))
  let out := (ambient.add ds.1).add ds.2
  ⟨out.x, out.y, out.z, 1⟩

end Material

/-- Embedding of Sphere from src/sphere.rs. -/
structure Sphere where
  origin : Tuple4
  radius : ℝ
  transform : Matrix4x4
  material : Material

namespace Sphere

/-- Sphere::new: unit sphere at the origin, identity transform, default
material. -/
def new : Sphere := ⟨Tuple4.point 0 0 0, 1, Matrix4x4.identity, Material.default⟩

end Sphere

/-- Embedding of SphereIntersection from src/sphere.rs: a t value and the
sphere it refers to. -/
structure SphereIntersection where
  t : ℝ
  sphere : Sphere

namespace Sphere

/-- Embedding of Sphere::intersect from src/sphere.rs.  The outer Option
models the expect("Can't inverse singular matrix") panic: none when the
sphere's transform is singular.  Otherwise the quadratic for the ray
transformed into object space is solved: an empty list when the
discriminant is negative, else the two roots in -sqrt, +sqrt order,
both referencing this sphere. -/
def intersect (s : Sphere) (r : Ray) : Option (List SphereIntersection) :=
  match s.transform.inverse with
  | none => none
  | some ray_transformation_matrix =>
    let transformed_ray := r.transform ray_transformation_matrix
    let sphere_to_ray := transformed_ray.origin.sub s.origin
    let a := transformed_ray.direction.dot transformed_ray.direction
    let b := 2 * transformed_ray.direction.dot sphere_to_ray
    let c := sphere_to_ray.dot sphere_to_ray - 1
    let discriminant := b * b - 4 * a * c
    if discriminant < 0 then some []
    else
      some [⟨(-b - Real.sqrt discriminant) / (2 * a), s⟩,
            ⟨(-b + Real.sqrt discriminant) / (2 * a), s⟩]

/-- Embedding of Sphere::normal_at from src/sphere.rs.  The Option models
the inverse().unwrap() panic (the source unwraps the same inverse
twice).  The world normal has its w component overwritten with 0 before
normalization. -/
def normalAt (s : Sphere) (p : Tuple4) : Option Tuple4 :=
  match s.transform.inverse with
  | none => none
  | some minv =>
    let object_point := minv.mulTuple p
    let object_normal := object_point.sub (Tuple4.point 0 0 0)
    let world_normal := minv.transpose.mulTuple object_normal
    some (Tuple4.normalize ⟨world_normal.x, world_normal.y, world_normal.z, 0⟩)

end Sphere

/-- One fold step of Iterator::min_by with the comparator
a.t.partial_cmp(&b.t).expect(..): the accumulator is kept on Less or
Equal, so ties keep the earlier element.  Over the real-valued model the
comparator is total, so the expect cannot fire. -/
def hitFold (acc : Option SphereIntersection) (y : SphereIntersection) :
    Option SphereIntersection :=
  match acc with
  | none => some y
  | some a => if a.t ≤ y.t then some a else some y

namespace SphereIntersections

/-- Embedding of SphereIntersections::hit from src/sphere.rs: keep the
intersections with t >= 0, then take the minimum by t (first wins on
ties). -/
def hit (xs : List SphereIntersection) : Option SphereIntersection :=
  (xs.filter (fun i => decide (0 ≤ i.t))).foldl hitFold none

end SphereIntersections

/-- NaN-aware refinement of the f64 t values for SphereIntersections::hit:
a t value is either an ordinary real or NaN.  Only the two IEEE-754
comparison facts hit depends on are needed: NaN >= 0 is false, and
partial comparison against NaN yields no ordering. -/
inductive F64 where
  | num (val : ℝ)
  | nan

/-- The filter test x.t >= 0.0 of hit, on NaN-aware values: false for
NaN per IEEE-754. -/
def F64.ge0 : F64 → Bool
  | F64.num v => decide (0 ≤ v)
  | F64.nan => false

/-- IEEE-754 partial comparison (Rust partial_cmp on f64): no ordering
when either side is NaN. -/
def F64.cmpOpt : F64 → F64 → Option Ordering
  | F64.num a, F64.num b =>
      some (if a < b then Ordering.lt else if a = b then Ordering.eq else Ordering.gt)
  | _, _ => none

/-- A sphere intersection with a NaN-aware t value. -/
structure IntersectionF where
  t : F64
  sphere : Sphere

/-- One fold step of Iterator::min_by with the panicking comparator
partial_cmp(..).expect("Tried to compare to NaN"); the outer Option
models the panic. -/
def hitFoldF (acc : Option IntersectionF) (y : IntersectionF) :
    Option (Option IntersectionF) :=
  match acc with
  | none => some (some y)
  | some a =>
    match F64.cmpOpt a.t y.t with
    | none => none
    | some o => some (if o = Ordering.gt then some y else some a)

/-- NaN-aware embedding of SphereIntersections::hit from src/sphere.rs:
filter t >= 0.0 first, then min_by with the expect-ing comparator.  The
outer Option models the panic: the overall result is none exactly when
the comparator is ever applied to a NaN. -/
def hitF (xs : List IntersectionF) : Option (Option IntersectionF) :=
  (xs.filter (fun i => i.t.ge0)).foldlM hitFoldF none

/-- Modelled from the spec: SphereIntersections::sort_by_t_ascending is
called by World::intersect but missing from src/sphere.rs; the spec says
the merged intersections are sorted ascending by t.  Insertion of one
element into a list sorted ascending by t. -/
def insertByT (i : SphereIntersection) : List SphereIntersection → List SphereIntersection
  | [] => [i]
  | j :: l => if i.t ≤ j.t then i :: j :: l else j :: insertByT i l

/-- Modelled from the spec: sort a list of intersections ascending by t
(insertion sort). -/
def sortByT : List SphereIntersection → List SphereIntersection
  | [] => []
  | i :: l => insertByT i (sortByT l)

/-- Embedding of World from src/world.rs: a list of spheres and an
optional point light. -/
structure World where
  objects : List Sphere
  light : Option PointLight

/-- The loop of World::intersect: collect each object's intersections in
object order (appending), propagating the singular-transform panic of
Sphere::intersect. -/
def worldIntersectGo (r : Ray) : List Sphere → Option (List SphereIntersection)
  | [] => some []
  | o :: os =>
    match o.intersect r, worldIntersectGo r os with
    | some l, some rest => some (l ++ rest)
    | _, _ => none

namespace World

/-- Embedding of World::intersect from src/world.rs: append every
object's intersections, then sort ascending by t. -/
def intersect (w : World) (r : Ray) : Option (List SphereIntersection) :=
  match worldIntersectGo r w.objects with
  | none => none
  | some l => some (sortByT l)

end World

/-- Embedding of PreparedComputations from src/world.rs. -/
structure PreparedComputations where
  t : ℝ
  object : Sphere
  point : Tuple4
  eyev : Tuple4
  normalv : Tuple4
  inside : Bool

namespace PreparedComputations

/-- Embedding of PreparedComputations::new from src/world.rs.  The Option
models the inverse().unwrap() panic inside Sphere::normal_at.  The eye
vector is -1.0 * ray.direction; when dot(normal, eye) < 0 the normal is
flipped and inside is recorded as true. -/
def new (i : SphereIntersection) (r : Ray) : Option PreparedComputations :=
  match i.sphere.normalAt (r.position i.t) with
  | none => none
  | some n =>
    let eyev := r.direction.mulScalar (-1)
    if n.dot eyev < 0 then
      some ⟨i.t, i.sphere, r.position i.t, eyev, n.mulScalar (-1), true⟩
    else
      some ⟨i.t, i.sphere, r.position i.t, eyev, n, false⟩

end PreparedComputations

namespace World

/-- Embedding of World::shade_hit from src/world.rs: Some lighting result
when a light is configured, None otherwise. -/
def shadeHit (w : World) (comps : PreparedComputations) : Option Tuple4 :=
  match w.light with
  | some point_light =>
      some (comps.object.material.lighting point_light comps.point comps.eyev comps.normalv)
  | none => none

/-- Embedding of World::color_at from src/world.rs.  The outer Option
models panics propagated from intersect / prepare; Color::new(0,0,0)
(black) is rendered as Tuple4.point 0 0 0.  With no hit the result is
black, and a shade_hit of None is defaulted to black (unwrap_or). -/
def colorAt (w : World) (r : Ray) : Option Tuple4 :=
  match w.intersect r with
  | none => none
  | some xs =>
    match SphereIntersections.hit xs with
    | some i =>
      match PreparedComputations.new i r with
      | none => none
      | some comps => some ((w.shadeHit comps).getD (Tuple4.point 0 0 0))
    | none => some (Tuple4.point 0 0 0)

end World

/-- Matrices built by the transform constructors of src/matrix.rs
(translation, scaling, rotation_x/y/z, shearing), closed under matrix
multiplication. -/
inductive TransformBuilt : Matrix4x4 → Prop
  | translation (x y z : ℝ) : TransformBuilt (Matrix4x4.translation x y z)
  | scaling (x y z : ℝ) : TransformBuilt (Matrix4x4.scaling x y z)
  | rotation_x (r : ℝ) : TransformBuilt (Matrix4x4.rotation_x r)
  | rotation_y (r : ℝ) : TransformBuilt (Matrix4x4.rotation_y r)
  | rotation_z (r : ℝ) : TransformBuilt (Matrix4x4.rotation_z r)
  | shearing (xy xz yx yz zx zy : ℝ) : TransformBuilt (Matrix4x4.shearing xy xz yx yz zx zy)
  | mul (A B : Matrix4x4) : TransformBuilt A → TransformBuilt B → TransformBuilt (A.mul B)

/-- IEEE-754-aware refinement of an f64 value for Tuple4::normalize: a
finite double (modelled exactly as a real), one of the two infinities,
or NaN.  Analogous to the F64 refinement used for hit: only the IEEE
facts the normalize path depends on are modelled. -/
inductive F64x where
  | num (val : ℝ)
  | pinf
  | ninf
  | nan

/-- IEEE reciprocal 1.0 / x of a finite f64 x: +inf when x is +0 (the
divisor in normalize is a magnitude, i.e. an IEEE sqrt result, so a zero
divisor is always +0), and the exact real reciprocal otherwise. -/
def F64x.recip (x : ℝ) : F64x :=
  if x = 0 then F64x.pinf else F64x.num (1 / x)

/-- IEEE product of a finite f64 with an extended value: 0 * (+-inf) is
NaN, a nonzero finite times an infinity is a signed infinity, NaN
propagates, and finite * finite is exact. -/
def F64x.mulReal (a : ℝ) : F64x → F64x
  | F64x.num v => F64x.num (a * v)
  | F64x.pinf => if a = 0 then F64x.nan else if 0 < a then F64x.pinf else F64x.ninf
  | F64x.ninf => if a = 0 then F64x.nan else if 0 < a then F64x.ninf else F64x.pinf
  | F64x.nan => F64x.nan

/-- A tuple of IEEE-extended components. -/
structure Tuple4x where
  x : F64x
  y : F64x
  z : F64x
  w : F64x

/-- NaN-aware refinement of Tuple4::normalize from src/tuple.rs for a
finite input tuple: the magnitude sqrt(dot(self, self)) is exact real
arithmetic (IEEE sqrt of +0 is +0), and the unguarded division
self / mag = self * (1.0 / mag) is evaluated with IEEE special values,
so a zero magnitude turns every component c into c * (+inf). -/
def Tuple4.normalizeIEEE (t : Tuple4) : Tuple4x :=
  let r := F64x.recip t.magnitude
  ⟨F64x.mulReal t.x r, F64x.mulReal t.y r, F64x.mulReal t.z r, F64x.mulReal t.w r⟩

/-- NaN-aware refinement of Sphere::normal_at from src/sphere.rs: the
inverse-transform, subtraction and transpose-multiply steps are exact
real arithmetic on finite inputs; only the final normalize is refined
with IEEE special values.  The Option models the inverse().unwrap()
panic, exactly as in normalAt. -/
def Sphere.normalAtIEEE (s : Sphere) (p : Tuple4) : Option Tuple4x :=
  match s.transform.inverse with
  | none => none
  | some minv =>
    let object_point := minv.mulTuple p
    let object_normal := object_point.sub (Tuple4.point 0 0 0)
    let world_normal := minv.transpose.mulTuple object_normal
    some (Tuple4.normalizeIEEE ⟨world_normal.x, world_normal.y, world_normal.z, 0⟩)

end

/-!
Helper lemmas: entry access on concrete indices, index arithmetic, and
algebraic facts about the cofactor inverse.
-/

@[simp]
theorem Matrix4x4.get_00 (m : Matrix4x4) : m.get 0 0 = m.e00 := rfl

@[simp]
theorem Matrix4x4.get_01 (m : Matrix4x4) : m.get 0 1 = m.e01 := rfl

@[simp]
theorem Matrix4x4.get_02 (m : Matrix4x4) : m.get 0 2 = m.e02 := rfl

@[simp]
theorem Matrix4x4.get_03 (m : Matrix4x4) : m.get 0 3 = m.e03 := rfl

@[simp]
theorem Matrix4x4.get_10 (m : Matrix4x4) : m.get 1 0 = m.e10 := rfl

@[simp]
theorem Matrix4x4.get_11 (m : Matrix4x4) : m.get 1 1 = m.e11 := rfl

@[simp]
theorem Matrix4x4.get_12 (m : Matrix4x4) : m.get 1 2 = m.e12 := rfl

@[simp]
theorem Matrix4x4.get_13 (m : Matrix4x4) : m.get 1 3 = m.e13 := rfl

@[simp]
theorem Matrix4x4.get_20 (m : Matrix4x4) : m.get 2 0 = m.e20 := rfl

@[simp]
theorem Matrix4x4.get_21 (m : Matrix4x4) : m.get 2 1 = m.e21 := rfl

@[simp]
theorem Matrix4x4.get_22 (m : Matrix4x4) : m.get 2 2 = m.e22 := rfl

@[simp]
theorem Matrix4x4.get_23 (m : Matrix4x4) : m.get 2 3 = m.e23 := rfl

@[simp]
theorem Matrix4x4.get_30 (m : Matrix4x4) : m.get 3 0 = m.e30 := rfl

@[simp]
theorem Matrix4x4.get_31 (m : Matrix4x4) : m.get 3 1 = m.e31 := rfl

@[simp]
theorem Matrix4x4.get_32 (m : Matrix4x4) : m.get 3 2 = m.e32 := rfl

@[simp]
theorem Matrix4x4.get_33 (m : Matrix4x4) : m.get 3 3 = m.e33 := rfl

@[simp]
theorem Matrix3x3.getM3_00 (m : Matrix3x3) : m.get 0 0 = m.e00 := rfl

@[simp]
theorem Matrix3x3.getM3_01 (m : Matrix3x3) : m.get 0 1 = m.e01 := rfl

@[simp]
theorem Matrix3x3.getM3_02 (m : Matrix3x3) : m.get 0 2 = m.e02 := rfl

@[simp]
theorem Matrix3x3.getM3_10 (m : Matrix3x3) : m.get 1 0 = m.e10 := rfl

@[simp]
theorem Matrix3x3.getM3_11 (m : Matrix3x3) : m.get 1 1 = m.e11 := rfl

@[simp]
theorem Matrix3x3.getM3_12 (m : Matrix3x3) : m.get 1 2 = m.e12 := rfl

@[simp]
theorem Matrix3x3.getM3_20 (m : Matrix3x3) : m.get 2 0 = m.e20 := rfl

@[simp]
theorem Matrix3x3.getM3_21 (m : Matrix3x3) : m.get 2 1 = m.e21 := rfl

@[simp]
theorem Matrix3x3.getM3_22 (m : Matrix3x3) : m.get 2 2 = m.e22 := rfl

@[simp]
theorem skipIdx_00 : skipIdx 0 0 = 1 := rfl

@[simp]
theorem skipIdx_01 : skipIdx 0 1 = 2 := rfl

@[simp]
theorem skipIdx_02 : skipIdx 0 2 = 3 := rfl

@[simp]
theorem skipIdx_10 : skipIdx 1 0 = 0 := rfl

@[simp]
theorem skipIdx_11 : skipIdx 1 1 = 2 := rfl

@[simp]
theorem skipIdx_12 : skipIdx 1 2 = 3 := rfl

@[simp]
theorem skipIdx_20 : skipIdx 2 0 = 0 := rfl

@[simp]
theorem skipIdx_21 : skipIdx 2 1 = 1 := rfl

@[simp]
theorem skipIdx_22 : skipIdx 2 2 = 3 := rfl

@[simp]
theorem skipIdx_30 : skipIdx 3 0 = 0 := rfl

@[simp]
theorem skipIdx_31 : skipIdx 3 1 = 1 := rfl

@[simp]
theorem skipIdx_32 : skipIdx 3 2 = 2 := rfl

@[simp]
theorem ite_nat_zero_one (a b : ℝ) : (if (0 : ℕ) = 1 then a else b) = b := by norm_num

@[simp]
theorem ite_nat_one_one (a b : ℝ) : (if (1 : ℕ) = 1 then a else b) = a := by norm_num

/-- Combining four terms of the form a * (c / d) over a common nonzero
denominator: the diagonal case of the cofactor expansion. -/
theorem rowdiv_diag (a0 a1 a2 a3 c0 c1 c2 c3 d : ℝ) (hd : d ≠ 0)
    (h : a0 * c0 + a1 * c1 + a2 * c2 + a3 * c3 = d) :
    a0 * (c0 / d) + a1 * (c1 / d) + a2 * (c2 / d) + a3 * (c3 / d) = 1 := by
  have e : a0 * (c0 / d) + a1 * (c1 / d) + a2 * (c2 / d) + a3 * (c3 / d)
      = (a0 * c0 + a1 * c1 + a2 * c2 + a3 * c3) / d := by ring
  rw [e, h, div_self hd]

/-- Combining four terms of the form a * (c / d) over a common nonzero
denominator: the off-diagonal (alien cofactor) case. -/
theorem rowdiv_off (a0 a1 a2 a3 c0 c1 c2 c3 d : ℝ) (hd : d ≠ 0)
    (h : a0 * c0 + a1 * c1 + a2 * c2 + a3 * c3 = 0) :
    a0 * (c0 / d) + a1 * (c1 / d) + a2 * (c2 / d) + a3 * (c3 / d) = 0 := by
  have e : a0 * (c0 / d) + a1 * (c1 / d) + a2 * (c2 / d) + a3 * (c3 / d)
      = (a0 * c0 + a1 * c1 + a2 * c2 + a3 * c3) / d := by ring
  rw [e, h, zero_div]

/-- Combining four terms of the form (c / d) * a over a common nonzero
denominator: the diagonal case. -/
theorem coldiv_diag (a0 a1 a2 a3 c0 c1 c2 c3 d : ℝ) (hd : d ≠ 0)
    (h : c0 * a0 + c1 * a1 + c2 * a2 + c3 * a3 = d) :
    c0 / d * a0 + c1 / d * a1 + c2 / d * a2 + c3 / d * a3 = 1 := by
  have e : c0 / d * a0 + c1 / d * a1 + c2 / d * a2 + c3 / d * a3
      = (c0 * a0 + c1 * a1 + c2 * a2 + c3 * a3) / d := by ring
  rw [e, h, div_self hd]

/-- Combining four terms of the form (c / d) * a over a common nonzero
denominator: the off-diagonal case. -/
theorem coldiv_off (a0 a1 a2 a3 c0 c1 c2 c3 d : ℝ) (hd : d ≠ 0)
    (h : c0 * a0 + c1 * a1 + c2 * a2 + c3 * a3 = 0) :
    c0 / d * a0 + c1 / d * a1 + c2 / d * a2 + c3 / d * a3 = 0 := by
  have e : c0 / d * a0 + c1 / d * a1 + c2 / d * a2 + c3 / d * a3
      = (c0 * a0 + c1 * a1 + c2 * a2 + c3 * a3) / d := by ring
  rw [e, h, zero_div]

/-- A successful inverse means the determinant passed the precision
test, hence is nonzero. -/
theorem det_ne_zero_of_inverse_some (M N : Matrix4x4) (h : M.inverse = some N) :
    M.det ≠ 0 := by
  rw [Matrix4x4.inverse] at h
  by_cases hd : |M.det| < Matrix4x4.PRECISION
  · rw [if_pos hd] at h; exact absurd h (by simp)
  · intro h0
    rw [h0] at hd
    exact hd (by norm_num [Matrix4x4.PRECISION])

set_option maxHeartbeats 2000000 in
/-- The cofactor-transpose inverse is a right inverse: M * inverse(M) is
the identity (exactly, over the reals). -/
theorem mul_inverse_eq_identity (M N : Matrix4x4) (h : M.inverse = some N) :
    M.mul N = Matrix4x4.identity := by
  have hdet := det_ne_zero_of_inverse_some M N h
  rw [Matrix4x4.inverse] at h
  rw [if_neg (by intro hc; exact absurd (if_pos hc ▸ h) (by simp))] at h
  rw [Option.some.injEq] at h
  subst h
  obtain ⟨a0, a1, a2, a3, a4, a5, a6, a7, a8, a9, a10, a11, a12, a13, a14, a15⟩ := M
  simp only [Matrix4x4.mul, Matrix4x4.mulEntry, Matrix4x4.det, Matrix4x4.cofactor,
    Matrix4x4.minor, Matrix4x4.submatrix, Matrix3x3.det, Matrix3x3.cofactor,
    Matrix3x3.minor, Matrix3x3.submatrix, Matrix2x2.det,
    skipIdx_00, skipIdx_01, skipIdx_02, skipIdx_10, skipIdx_11, skipIdx_12,
    skipIdx_20, skipIdx_21, skipIdx_22, skipIdx_30, skipIdx_31, skipIdx_32,
    Matrix4x4.get_00, Matrix4x4.get_01, Matrix4x4.get_02, Matrix4x4.get_03,
    Matrix4x4.get_10, Matrix4x4.get_11, Matrix4x4.get_12, Matrix4x4.get_13,
    Matrix4x4.get_20, Matrix4x4.get_21, Matrix4x4.get_22, Matrix4x4.get_23,
    Matrix4x4.get_30, Matrix4x4.get_31, Matrix4x4.get_32, Matrix4x4.get_33,
    Matrix3x3.getM3_00, Matrix3x3.getM3_01, Matrix3x3.getM3_02, Matrix3x3.getM3_10,
    Matrix3x3.getM3_11, Matrix3x3.getM3_12, Matrix3x3.getM3_20, Matrix3x3.getM3_21,
    Matrix3x3.getM3_22, Nat.reduceAdd, Nat.reduceMod, ite_nat_zero_one, ite_nat_one_one,
    if_true, if_false, Matrix4x4.identity, Matrix4x4.mk.injEq] at hdet ⊢
  refine ⟨?_, ?_, ?_, ?_, ?_, ?_, ?_, ?_, ?_, ?_, ?_, ?_, ?_, ?_, ?_, ?_⟩
  · exact rowdiv_diag _ _ _ _ _ _ _ _ _ hdet (by ring)
  · exact rowdiv_off _ _ _ _ _ _ _ _ _ hdet (by ring)
  · exact rowdiv_off _ _ _ _ _ _ _ _ _ hdet (by ring)
  · exact rowdiv_off _ _ _ _ _ _ _ _ _ hdet (by ring)
  · exact rowdiv_off _ _ _ _ _ _ _ _ _ hdet (by ring)
  · exact rowdiv_diag _ _ _ _ _ _ _ _ _ hdet (by ring)
  · exact rowdiv_off _ _ _ _ _ _ _ _ _ hdet (by ring)
  · exact rowdiv_off _ _ _ _ _ _ _ _ _ hdet (by ring)
  · exact rowdiv_off _ _ _ _ _ _ _ _ _ hdet (by ring)
  · exact rowdiv_off _ _ _ _ _ _ _ _ _ hdet (by ring)
  · exact rowdiv_diag _ _ _ _ _ _ _ _ _ hdet (by ring)
  · exact rowdiv_off _ _ _ _ _ _ _ _ _ hdet (by ring)
  · exact rowdiv_off _ _ _ _ _ _ _ _ _ hdet (by ring)
  · exact rowdiv_off _ _ _ _ _ _ _ _ _ hdet (by ring)
  · exact rowdiv_off _ _ _ _ _ _ _ _ _ hdet (by ring)
  · exact rowdiv_diag _ _ _ _ _ _ _ _ _ hdet (by ring)

set_option maxHeartbeats 2000000 in
/-- The cofactor-transpose inverse is also a left inverse: inverse(M) * M
is the identity (exactly, over the reals). -/
theorem inverse_mul_eq_identity (M N : Matrix4x4) (h : M.inverse = some N) :
    N.mul M = Matrix4x4.identity := by
  have hdet := det_ne_zero_of_inverse_some M N h
  rw [Matrix4x4.inverse] at h
  rw [if_neg (by intro hc; exact absurd (if_pos hc ▸ h) (by simp))] at h
  rw [Option.some.injEq] at h
  subst h
  obtain ⟨a0, a1, a2, a3, a4, a5, a6, a7, a8, a9, a10, a11, a12, a13, a14, a15⟩ := M
  simp only [Matrix4x4.mul, Matrix4x4.mulEntry, Matrix4x4.det, Matrix4x4.cofactor,
    Matrix4x4.minor, Matrix4x4.submatrix, Matrix3x3.det, Matrix3x3.cofactor,
    Matrix3x3.minor, Matrix3x3.submatrix, Matrix2x2.det,
    skipIdx_00, skipIdx_01, skipIdx_02, skipIdx_10, skipIdx_11, skipIdx_12,
    skipIdx_20, skipIdx_21, skipIdx_22, skipIdx_30, skipIdx_31, skipIdx_32,
    Matrix4x4.get_00, Matrix4x4.get_01, Matrix4x4.get_02, Matrix4x4.get_03,
    Matrix4x4.get_10, Matrix4x4.get_11, Matrix4x4.get_12, Matrix4x4.get_13,
    Matrix4x4.get_20, Matrix4x4.get_21, Matrix4x4.get_22, Matrix4x4.get_23,
    Matrix4x4.get_30, Matrix4x4.get_31, Matrix4x4.get_32, Matrix4x4.get_33,
    Matrix3x3.getM3_00, Matrix3x3.getM3_01, Matrix3x3.getM3_02, Matrix3x3.getM3_10,
    Matrix3x3.getM3_11, Matrix3x3.getM3_12, Matrix3x3.getM3_20, Matrix3x3.getM3_21,
    Matrix3x3.getM3_22, Nat.reduceAdd, Nat.reduceMod, ite_nat_zero_one, ite_nat_one_one,
    if_true, if_false, Matrix4x4.identity, Matrix4x4.mk.injEq] at hdet ⊢
  refine ⟨?_, ?_, ?_, ?_, ?_, ?_, ?_, ?_, ?_, ?_, ?_, ?_, ?_, ?_, ?_, ?_⟩
  · exact coldiv_diag _ _ _ _ _ _ _ _ _ hdet (by ring)
  · exact coldiv_off _ _ _ _ _ _ _ _ _ hdet (by ring)
  · exact coldiv_off _ _ _ _ _ _ _ _ _ hdet (by ring)
  · exact coldiv_off _ _ _ _ _ _ _ _ _ hdet (by ring)
  · exact coldiv_off _ _ _ _ _ _ _ _ _ hdet (by ring)
  · exact coldiv_diag _ _ _ _ _ _ _ _ _ hdet (by ring)
  · exact coldiv_off _ _ _ _ _ _ _ _ _ hdet (by ring)
  · exact coldiv_off _ _ _ _ _ _ _ _ _ hdet (by ring)
  · exact coldiv_off _ _ _ _ _ _ _ _ _ hdet (by ring)
  · exact coldiv_off _ _ _ _ _ _ _ _ _ hdet (by ring)
  · exact coldiv_diag _ _ _ _ _ _ _ _ _ hdet (by ring)
  · exact coldiv_off _ _ _ _ _ _ _ _ _ hdet (by ring)
  · exact coldiv_off _ _ _ _ _ _ _ _ _ hdet (by ring)
  · exact coldiv_off _ _ _ _ _ _ _ _ _ hdet (by ring)
  · exact coldiv_off _ _ _ _ _ _ _ _ _ hdet (by ring)
  · exact coldiv_diag _ _ _ _ _ _ _ _ _ hdet (by ring)

set_option maxHeartbeats 1000000 in
/-- Associativity of the embedded matrix product. -/
theorem mul_assoc4 (A B C : Matrix4x4) : (A.mul B).mul C = A.mul (B.mul C) := by
  obtain ⟨a0, a1, a2, a3, a4, a5, a6, a7, a8, a9, a10, a11, a12, a13, a14, a15⟩ := A
  obtain ⟨b0, b1, b2, b3, b4, b5, b6, b7, b8, b9, b10, b11, b12, b13, b14, b15⟩ := B
  obtain ⟨c0, c1, c2, c3, c4, c5, c6, c7, c8, c9, c10, c11, c12, c13, c14, c15⟩ := C
  simp only [Matrix4x4.mul, Matrix4x4.mulEntry,
    Matrix4x4.get_00, Matrix4x4.get_01, Matrix4x4.get_02, Matrix4x4.get_03,
    Matrix4x4.get_10, Matrix4x4.get_11, Matrix4x4.get_12, Matrix4x4.get_13,
    Matrix4x4.get_20, Matrix4x4.get_21, Matrix4x4.get_22, Matrix4x4.get_23,
    Matrix4x4.get_30, Matrix4x4.get_31, Matrix4x4.get_32, Matrix4x4.get_33,
    Matrix4x4.mk.injEq]
  refine ⟨?_, ?_, ?_, ?_, ?_, ?_, ?_, ?_, ?_, ?_, ?_, ?_, ?_, ?_, ?_, ?_⟩ <;> ring

/-- The identity matrix is a left unit for the embedded product. -/
theorem identity_mul (A : Matrix4x4) : Matrix4x4.identity.mul A = A := by
  obtain ⟨a0, a1, a2, a3, a4, a5, a6, a7, a8, a9, a10, a11, a12, a13, a14, a15⟩ := A
  simp only [Matrix4x4.mul, Matrix4x4.mulEntry, Matrix4x4.identity,
    Matrix4x4.get_00, Matrix4x4.get_01, Matrix4x4.get_02, Matrix4x4.get_03,
    Matrix4x4.get_10, Matrix4x4.get_11, Matrix4x4.get_12, Matrix4x4.get_13,
    Matrix4x4.get_20, Matrix4x4.get_21, Matrix4x4.get_22, Matrix4x4.get_23,
    Matrix4x4.get_30, Matrix4x4.get_31, Matrix4x4.get_32, Matrix4x4.get_33,
    Matrix4x4.mk.injEq]
  refine ⟨?_, ?_, ?_, ?_, ?_, ?_, ?_, ?_, ?_, ?_, ?_, ?_, ?_, ?_, ?_, ?_⟩ <;> ring

/-- The identity matrix is a right unit for the embedded product. -/
theorem mul_identity (A : Matrix4x4) : A.mul Matrix4x4.identity = A := by
  obtain ⟨a0, a1, a2, a3, a4, a5, a6, a7, a8, a9, a10, a11, a12, a13, a14, a15⟩ := A
  simp only [Matrix4x4.mul, Matrix4x4.mulEntry, Matrix4x4.identity,
    Matrix4x4.get_00, Matrix4x4.get_01, Matrix4x4.get_02, Matrix4x4.get_03,
    Matrix4x4.get_10, Matrix4x4.get_11, Matrix4x4.get_12, Matrix4x4.get_13,
    Matrix4x4.get_20, Matrix4x4.get_21, Matrix4x4.get_22, Matrix4x4.get_23,
    Matrix4x4.get_30, Matrix4x4.get_31, Matrix4x4.get_32, Matrix4x4.get_33,
    Matrix4x4.mk.injEq]
  refine ⟨?_, ?_, ?_, ?_, ?_, ?_, ?_, ?_, ?_, ?_, ?_, ?_, ?_, ?_, ?_, ?_⟩ <;> ring

/-- Inverting the computed inverse (when that succeeds) recovers the
original matrix exactly. -/
theorem inverse_inverse_eq (M N N2 : Matrix4x4) (h1 : M.inverse = some N)
    (h2 : N.inverse = some N2) : N2 = M := by
  have e1 : M.mul N = Matrix4x4.identity := mul_inverse_eq_identity M N h1
  have e2 : N.mul N2 = Matrix4x4.identity := mul_inverse_eq_identity N N2 h2
  calc N2 = Matrix4x4.identity.mul N2 := (identity_mul N2).symm
    _ = (M.mul N).mul N2 := by rw [e1]
    _ = M.mul (N.mul N2) := mul_assoc4 M N N2
    _ = M.mul Matrix4x4.identity := by rw [e2]
    _ = M := mul_identity M

/-- The inverse of the identity matrix is the identity. -/
theorem inverse_identity : Matrix4x4.identity.inverse = some Matrix4x4.identity := by
  rw [Matrix4x4.inverse]
  rw [if_neg]
  · congr 1
    simp only [Matrix4x4.det, Matrix4x4.cofactor, Matrix4x4.minor, Matrix4x4.submatrix,
      Matrix3x3.det, Matrix3x3.cofactor, Matrix3x3.minor, Matrix3x3.submatrix, Matrix2x2.det,
      skipIdx]
    norm_num [Matrix4x4.identity]
  · simp only [Matrix4x4.det, Matrix4x4.cofactor, Matrix4x4.minor, Matrix4x4.submatrix,
      Matrix3x3.det, Matrix3x3.cofactor, Matrix3x3.minor, Matrix3x3.submatrix, Matrix2x2.det,
      skipIdx]
    norm_num [Matrix4x4.identity, Matrix4x4.PRECISION]

/-- Multiplying by the identity matrix leaves a tuple unchanged. -/
theorem identity_mulTuple (t : Tuple4) : Matrix4x4.identity.mulTuple t = t := by
  obtain ⟨x, y, z, w⟩ := t
  simp only [Matrix4x4.mulTuple, Matrix4x4.identity, Tuple4.mk.injEq]
  refine ⟨by ring, by ring, by ring, by ring⟩

/-- The last row of an affine transform-constructor matrix is (0,0,0,1). -/
def lastRowAffine (m : Matrix4x4) : Prop :=
  m.e30 = 0 ∧ m.e31 = 0 ∧ m.e32 = 0 ∧ m.e33 = 1

/-- Every matrix built from the transform constructors and their products
has last row (0,0,0,1). -/
theorem transformBuilt_lastRow (M : Matrix4x4) (h : TransformBuilt M) :
    lastRowAffine M := by
  induction h with
  | translation x y z => refine ⟨rfl, rfl, rfl, rfl⟩
  | scaling x y z => refine ⟨rfl, rfl, rfl, rfl⟩
  | rotation_x r => refine ⟨rfl, rfl, rfl, rfl⟩
  | rotation_y r => refine ⟨rfl, rfl, rfl, rfl⟩
  | rotation_z r => refine ⟨rfl, rfl, rfl, rfl⟩
  | shearing xy xz yx yz zx zy => refine ⟨rfl, rfl, rfl, rfl⟩
  | mul A B hA hB ihA ihB =>
    obtain ⟨ha0, ha1, ha2, ha3⟩ := ihA
    obtain ⟨hb0, hb1, hb2, hb3⟩ := ihB
    refine ⟨?_, ?_, ?_, ?_⟩ <;>
      simp [Matrix4x4.mul, Matrix4x4.mulEntry, ha0, ha1, ha2, ha3, hb0, hb1, hb2, hb3]

/-!
Claim theorems.
-/

/-- Claim C3: Matrix4x4::inverse returns the not-invertible signal (None)
exactly when |det(M)| < 1e-12, and when it returns a matrix, the entry at
row x, column y is cofactor(y, x) of M divided by det(M); it never
returns a best-effort result for a singular matrix. -/
theorem inverse_spec (M : Matrix4x4) :
    (M.inverse = none ↔ |M.det| < Matrix4x4.PRECISION) ∧
    (∀ N, M.inverse = some N → ∀ x y, x < 4 → y < 4 →
      N.get x y = M.cofactor y x / M.det) := by
  constructor
  · rw [Matrix4x4.inverse]
    by_cases hd : |M.det| < Matrix4x4.PRECISION
    · rw [if_pos hd]; simp [hd]
    · rw [if_neg hd]; simp [hd]
  · intro N h x y hx hy
    rw [Matrix4x4.inverse] at h
    rw [if_neg (by intro hc; exact absurd (if_pos hc ▸ h) (by simp))] at h
    rw [Option.some.injEq] at h
    subst h
    interval_cases x <;> interval_cases y <;> rfl

/-- Witness for C3: the inverse of the identity matrix exists and its
entry at row 0, column 1 matches the cofactor formula. -/
theorem inverse_spec_witness :
    Matrix4x4.identity.get 0 1
      = Matrix4x4.identity.cofactor 1 0 / Matrix4x4.identity.det :=
  (inverse_spec Matrix4x4.identity).2 Matrix4x4.identity inverse_identity 0 1
    (by norm_num) (by norm_num)

/-- Claim C9 (amended): for every matrix M that passes the invertibility
test, M * inverse(M) equals the identity element-wise within 1e-5 (in
fact exactly, in the real-number model); and whenever the computed
inverse itself also passes the |det| >= 1e-12 test, inverse(inverse(M))
equals M element-wise within 1e-9 (in fact exactly).  The extra guard on
the inner inverse is needed: see the counterexample. -/
theorem inverse_roundtrip_amended (M N : Matrix4x4) (h : M.inverse = some N) :
    (∀ y x, y < 4 → x < 4 →
      |(M.mul N).get y x - Matrix4x4.identity.get y x| ≤ 1 / 100000) ∧
    (∀ N2, N.inverse = some N2 → ∀ y x, y < 4 → x < 4 →
      |N2.get y x - M.get y x| ≤ 1 / 1000000000) := by
  constructor
  · intro y x hy hx
    rw [mul_inverse_eq_identity M N h, sub_self, abs_zero]
    norm_num
  · intro N2 h2 y x hy hx
    rw [inverse_inverse_eq M N N2 h h2, sub_self, abs_zero]
    norm_num

/-- Witness for C9: both approximation bounds, instantiated at the
identity matrix. -/
theorem inverse_roundtrip_amended_witness :
    |(Matrix4x4.identity.mul Matrix4x4.identity).get 0 0
        - Matrix4x4.identity.get 0 0| ≤ 1 / 100000 ∧
    |Matrix4x4.identity.get 1 1 - Matrix4x4.identity.get 1 1| ≤ 1 / 1000000000 :=
  ⟨(inverse_roundtrip_amended _ _ inverse_identity).1 0 0 (by norm_num) (by norm_num),
   (inverse_roundtrip_amended _ _ inverse_identity).2 Matrix4x4.identity
      inverse_identity 1 1 (by norm_num) (by norm_num)⟩

/-- Counterexample for C9 as stated: the scaling matrix with factors
(1e13, 1, 1) is comfortably invertible (determinant 1e13), but its
computed inverse has determinant 1e-13, which fails the 1e-12 precision
test, so inverse(inverse(M)) is None and cannot equal M within 1e-9. -/
theorem inverse_roundtrip_counterexample :
    Matrix4x4.PRECISION ≤ |(Matrix4x4.scaling 10000000000000 1 1).det| ∧
    ∃ N, (Matrix4x4.scaling 10000000000000 1 1).inverse = some N ∧
      N.inverse = none := by
  constructor
  · norm_num [Matrix4x4.scaling, Matrix4x4.identity, Matrix4x4.det, Matrix4x4.cofactor,
      Matrix4x4.minor, Matrix4x4.submatrix, Matrix3x3.det, Matrix3x3.cofactor,
      Matrix3x3.minor, Matrix3x3.submatrix, Matrix2x2.det, skipIdx, Matrix4x4.PRECISION]
  · refine ⟨⟨1 / 10000000000000, 0, 0, 0, 0, 1, 0, 0, 0, 0, 1, 0, 0, 0, 0, 1⟩, ?_, ?_⟩
    · rw [Matrix4x4.inverse, if_neg]
      · congr 1
        simp only [Matrix4x4.det, Matrix4x4.cofactor, Matrix4x4.minor, Matrix4x4.submatrix,
          Matrix3x3.det, Matrix3x3.cofactor, Matrix3x3.minor, Matrix3x3.submatrix,
          Matrix2x2.det, skipIdx]
        norm_num [Matrix4x4.scaling, Matrix4x4.identity]
      · simp only [Matrix4x4.det, Matrix4x4.cofactor, Matrix4x4.minor, Matrix4x4.submatrix,
          Matrix3x3.det, Matrix3x3.cofactor, Matrix3x3.minor, Matrix3x3.submatrix,
          Matrix2x2.det, skipIdx]
        norm_num [Matrix4x4.scaling, Matrix4x4.identity, Matrix4x4.PRECISION]
    · rw [Matrix4x4.inverse, if_pos]
      simp only [Matrix4x4.det, Matrix4x4.cofactor, Matrix4x4.minor, Matrix4x4.submatrix,
        Matrix3x3.det, Matrix3x3.cofactor, Matrix3x3.minor, Matrix3x3.submatrix,
        Matrix2x2.det, skipIdx]
      norm_num [Matrix4x4.PRECISION]
      rw [abs_of_pos (by norm_num)]
      norm_num

/-- Claim C8: any matrix built by the transform constructors, or any
product of such matrices, preserves the homogeneous convention: a
vector (w = 0) maps to w = 0 and a point (w = 1) maps to w = 1; and a
translation matrix applied to any vector leaves it unchanged. -/
theorem transform_preserves_w :
    (∀ M, TransformBuilt M → ∀ t : Tuple4,
      (t.w = 0 → (M.mulTuple t).w = 0) ∧ (t.w = 1 → (M.mulTuple t).w = 1)) ∧
    (∀ (x y z : ℝ) (v : Tuple4), v.w = 0 →
      (Matrix4x4.translation x y z).mulTuple v = v) := by
  constructor
  · intro M hM t
    obtain ⟨h0, h1, h2, h3⟩ := transformBuilt_lastRow M hM
    constructor
    · intro hw
      simp [Matrix4x4.mulTuple, h0, h1, h2, h3, hw]
    · intro hw
      simp [Matrix4x4.mulTuple, h0, h1, h2, h3, hw]
  · intro x y z v hw
    obtain ⟨vx, vy, vz, vw⟩ := v
    simp only at hw
    subst hw
    simp only [Matrix4x4.mulTuple, Matrix4x4.translation, Matrix4x4.identity, Tuple4.mk.injEq]
    refine ⟨by ring, by ring, by ring, by ring⟩

/-- Witness for C8: a translation-scaling product applied to a vector and
to a point keeps w at 0 and 1 respectively, and a concrete translation
leaves a concrete vector unchanged. -/
theorem transform_preserves_w_witness :
    (((Matrix4x4.translation 1 2 3).mul (Matrix4x4.scaling 2 2 2)).mulTuple
        (Tuple4.vector 5 6 7)).w = 0 ∧
    (((Matrix4x4.translation 1 2 3).mul (Matrix4x4.scaling 2 2 2)).mulTuple
        (Tuple4.point 5 6 7)).w = 1 ∧
    (Matrix4x4.translation 1 2 3).mulTuple (Tuple4.vector 5 6 7) = Tuple4.vector 5 6 7 :=
  ⟨(transform_preserves_w.1 _ (TransformBuilt.mul _ _ (TransformBuilt.translation 1 2 3)
      (TransformBuilt.scaling 2 2 2)) (Tuple4.vector 5 6 7)).1 rfl,
   (transform_preserves_w.1 _ (TransformBuilt.mul _ _ (TransformBuilt.translation 1 2 3)
      (TransformBuilt.scaling 2 2 2)) (Tuple4.point 5 6 7)).2 rfl,
   transform_preserves_w.2 1 2 3 (Tuple4.vector 5 6 7) rfl⟩

/-- Folding min_by from an initial candidate a over l yields the first
element of a :: l attaining the minimal t: every element before it is
strictly larger, every element after it is at least as large. -/
theorem hitFold_go (l : List SphereIntersection) :
    ∀ a : SphereIntersection, ∃ r, l.foldl hitFold (some a) = some r ∧
      ∃ L1 L2, a :: l = L1 ++ r :: L2 ∧
        (∀ j ∈ L1, r.t < j.t) ∧ (∀ j ∈ L2, r.t ≤ j.t) := by
  induction l with
  | nil =>
    intro a
    exact ⟨a, rfl, [], [], rfl, by simp, by simp⟩
  | cons y l ih =>
    intro a
    by_cases h : a.t ≤ y.t
    · obtain ⟨r, hr, L1, L2, hsplit, h1, h2⟩ := ih a
      refine ⟨r, ?_, ?_⟩
      · simpa [hitFold, if_pos h] using hr
      · cases L1 with
        | nil =>
          simp only [List.nil_append, List.cons.injEq] at hsplit
          obtain ⟨rfl, rfl⟩ := hsplit
          refine ⟨[], y :: l, by simp, by simp, ?_⟩
          intro j hj
          rcases List.mem_cons.mp hj with rfl | hj2
          · exact h
          · exact h2 j hj2
        | cons b L1t =>
          simp only [List.cons_append, List.cons.injEq] at hsplit
          obtain ⟨rfl, hl⟩ := hsplit
          refine ⟨a :: y :: L1t, L2, by simp [hl], ?_, h2⟩
          intro j hj
          have hra : r.t < a.t := h1 a (by simp)
          rcases List.mem_cons.mp hj with rfl | hj2
          · exact hra
          · rcases List.mem_cons.mp hj2 with rfl | hj3
            · exact lt_of_lt_of_le hra h
            · exact h1 j (by simp [hj3])
    · obtain ⟨r, hr, L1, L2, hsplit, h1, h2⟩ := ih y
      have hya : y.t < a.t := lt_of_not_le h
      refine ⟨r, ?_, ?_⟩
      · simpa [hitFold, if_neg h] using hr
      · cases L1 with
        | nil =>
          simp only [List.nil_append, List.cons.injEq] at hsplit
          obtain ⟨rfl, rfl⟩ := hsplit
          refine ⟨[a], l, rfl, ?_, h2⟩
          intro j hj
          rcases List.mem_cons.mp hj with rfl | hj2
          · exact hya
          · simp at hj2
        | cons b L1t =>
          simp only [List.cons_append, List.cons.injEq] at hsplit
          obtain ⟨rfl, hl⟩ := hsplit
          have hry : r.t < y.t := h1 y (by simp)
          refine ⟨a :: y :: L1t, L2, by simp [hl], ?_, h2⟩
          intro j hj
          rcases List.mem_cons.mp hj with rfl | hj2
          · exact lt_trans hry hya
          · rcases List.mem_cons.mp hj2 with rfl | hj3
            · exact hry
            · exact h1 j (by simp [hj3])

/-- A positional split of a filtered list can be pulled back to a
positional split of the original list. -/
theorem filter_split (p : SphereIntersection → Bool) (xs : List SphereIntersection) :
    ∀ (L1 L2 : List SphereIntersection) (r : SphereIntersection),
      xs.filter p = L1 ++ r :: L2 →
      ∃ xs1 xs2, xs = xs1 ++ r :: xs2 ∧ xs1.filter p = L1 ∧ xs2.filter p = L2 := by
  induction xs with
  | nil =>
    intro L1 L2 r h
    rw [List.filter_nil] at h
    exact absurd h (by simp)
  | cons x xs ih =>
    intro L1 L2 r h
    by_cases hp : p x = true
    · rw [List.filter_cons_of_pos hp] at h
      cases L1 with
      | nil =>
        simp only [List.nil_append, List.cons.injEq] at h
        obtain ⟨rfl, hf⟩ := h
        exact ⟨[], xs, rfl, List.filter_nil p, hf⟩
      | cons b L1t =>
        simp only [List.cons_append, List.cons.injEq] at h
        obtain ⟨rfl, hf⟩ := h
        obtain ⟨xs1, xs2, hsp, hf1, hf2⟩ := ih L1t L2 r hf
        exact ⟨x :: xs1, xs2, by simp [hsp],
          by rw [List.filter_cons_of_pos hp, hf1], hf2⟩
    · rw [List.filter_cons_of_neg hp] at h
      obtain ⟨xs1, xs2, hsp, hf1, hf2⟩ := ih L1 L2 r h
      exact ⟨x :: xs1, xs2, by simp [hsp],
        by rw [List.filter_cons_of_neg hp, hf1], hf2⟩

/-- Claim C1: hit() returns the intersection with the smallest
non-negative t; intersections with t < 0 are never returned; on an empty
collection, or when every t is negative, it returns none; and on ties
for the minimal non-negative t the earliest intersection in input order
wins.  The positional split makes this precise: every intersection
before the returned one is negative or strictly larger, every one after
it is negative or at least as large.  The second conjunct checks the
spec's [5, 7, -3, 2] example and the all-negative example. -/
theorem hit_spec :
    (∀ xs : List SphereIntersection,
      (∀ i, SphereIntersections.hit xs = some i →
        0 ≤ i.t ∧ ∃ xs1 xs2, xs = xs1 ++ i :: xs2 ∧
          (∀ j ∈ xs1, j.t < 0 ∨ i.t < j.t) ∧ (∀ j ∈ xs2, 0 ≤ j.t → i.t ≤ j.t)) ∧
      (SphereIntersections.hit xs = none ↔ ∀ j ∈ xs, j.t < 0)) ∧
    (∀ s : Sphere,
      SphereIntersections.hit [⟨5, s⟩, ⟨7, s⟩, ⟨-3, s⟩, ⟨2, s⟩] = some ⟨2, s⟩ ∧
      SphereIntersections.hit [⟨-2, s⟩, ⟨-1, s⟩] = none) := by
  constructor
  · intro xs
    constructor
    · intro i hi
      rw [SphereIntersections.hit] at hi
      rcases hF : xs.filter (fun j => decide (0 ≤ j.t)) with _ | ⟨f, fs⟩
      · rw [hF] at hi
        exact absurd hi (by simp)
      · rw [hF] at hi
        obtain ⟨r, hr, L1, L2, hsplit, h1, h2⟩ := hitFold_go fs f
        rw [List.foldl_cons] at hi
        have hstep : hitFold none f = some f := rfl
        rw [hstep, hr, Option.some.injEq] at hi
        obtain rfl : r = i := hi
        have hiF : r ∈ xs.filter (fun j => decide (0 ≤ j.t)) := by
          rw [hF, hsplit]
          simp
        have hit0 : 0 ≤ r.t := by
          have := (List.mem_filter.mp hiF).2
          simpa using this
        have hFsplit : xs.filter (fun j => decide (0 ≤ j.t)) = L1 ++ r :: L2 := by
          rw [hF, hsplit]
        obtain ⟨xs1, xs2, hxs, hf1, hf2⟩ := filter_split _ xs L1 L2 r hFsplit
        refine ⟨hit0, xs1, xs2, hxs, ?_, ?_⟩
        · intro j hj
          by_cases hpj : (0 : ℝ) ≤ j.t
          · right
            refine h1 j ?_
            rw [← hf1]
            exact List.mem_filter.mpr ⟨hj, by simpa using hpj⟩
          · left
            exact lt_of_not_le hpj
        · intro j hj hpj
          refine h2 j ?_
          rw [← hf2]
          exact List.mem_filter.mpr ⟨hj, by simpa using hpj⟩
    · rw [SphereIntersections.hit]
      rcases hF : xs.filter (fun j => decide (0 ≤ j.t)) with _ | ⟨f, fs⟩
      · rw [hF]
        simp only [List.foldl_nil]
        constructor
        · intro _ j hj
          by_contra hge
          have hjF : j ∈ xs.filter (fun k => decide (0 ≤ k.t)) :=
            List.mem_filter.mpr ⟨hj, by simpa using le_of_not_lt hge⟩
          rw [hF] at hjF
          simp at hjF
        · intro _
          trivial
      · obtain ⟨r, hr, _, _, _, _, _⟩ := hitFold_go fs f
        rw [hF, List.foldl_cons]
        have hstep : hitFold none f = some f := rfl
        rw [hstep, hr]
        constructor
        · intro hcontra
          exact absurd hcontra (by simp)
        · intro hall
          have hfF : f ∈ xs.filter (fun k => decide (0 ≤ k.t)) := by
            rw [hF]; simp
          have hf0 : (0 : ℝ) ≤ f.t := by
            have := (List.mem_filter.mp hfF).2
            simpa using this
          have : f ∈ xs := (List.mem_filter.mp hfF).1
          exact absurd hf0 (not_le.mpr (hall f this))
  · intro s
    constructor
    · rw [SphereIntersections.hit]
      rw [List.filter_cons_of_pos (by norm_num), List.filter_cons_of_pos (by norm_num),
        List.filter_cons_of_neg (by norm_num), List.filter_cons_of_pos (by norm_num),
        List.filter_nil]
      show hitFold (hitFold (hitFold none ⟨5, s⟩) ⟨7, s⟩) ⟨2, s⟩ = some ⟨2, s⟩
      norm_num [hitFold]
    · rw [SphereIntersections.hit]
      rw [List.filter_cons_of_neg (by norm_num), List.filter_cons_of_neg (by norm_num),
        List.filter_nil]
      rfl

/-- Witness for C1: the general characterization applied to the concrete
collection [5, 7, -3, 2]. -/
theorem hit_spec_witness :
    0 ≤ (SphereIntersection.mk 2 Sphere.new).t ∧
    ∃ xs1 xs2,
      [SphereIntersection.mk 5 Sphere.new, ⟨7, Sphere.new⟩, ⟨-3, Sphere.new⟩,
        ⟨2, Sphere.new⟩] = xs1 ++ SphereIntersection.mk 2 Sphere.new :: xs2 ∧
      (∀ j ∈ xs1, j.t < 0 ∨ (SphereIntersection.mk 2 Sphere.new).t < j.t) ∧
      (∀ j ∈ xs2, 0 ≤ j.t → (SphereIntersection.mk 2 Sphere.new).t ≤ j.t) :=
  (hit_spec.1 [⟨5, Sphere.new⟩, ⟨7, Sphere.new⟩, ⟨-3, Sphere.new⟩, ⟨2, Sphere.new⟩]).1
    ⟨2, Sphere.new⟩ (hit_spec.2 Sphere.new).1

/-- Claim C7 is refuted by this evaluation: on a collection whose first
intersection has t = NaN, hit() does not fail.  The t >= 0.0 filter runs
before min_by and NaN >= 0 is false in IEEE-754, so the NaN intersection
is silently dropped before any comparison; the panicking comparator
(expect "Tried to compare to NaN") is never reached, and the t = 2
intersection is returned. -/
theorem hit_nan_silently_ignored :
    hitF [⟨F64.nan, Sphere.new⟩, ⟨F64.num 2, Sphere.new⟩]
      = some (some ⟨F64.num 2, Sphere.new⟩) := by
  rw [hitF, List.filter_cons_of_neg (by simp [F64.ge0]),
    List.filter_cons_of_pos (by norm_num [F64.ge0])]
  rfl

/-- Claim C5: when the light is behind the surface, i.e.
dot(normalize(light.position - point), normal) < 0, Material::lighting
zeroes the diffuse and specular terms and returns the ambient term
alone: componentwise (material.color * light.intensity) *
material.ambient (as a point, w = 1); with the default material and a
white light behind the surface this is (0.1, 0.1, 0.1). -/
theorem lighting_light_behind :
    (∀ (m : Material) (light : PointLight) (point eyev normalv : Tuple4),
      ((light.position.sub point).normalize).dot normalv < 0 →
      m.lighting light point eyev normalv =
        Tuple4.point (m.color.x * light.intensity.x * m.ambient)
          (m.color.y * light.intensity.y * m.ambient)
          (m.color.z * light.intensity.z * m.ambient)) ∧
    Material.default.lighting ⟨Tuple4.point 0 0 10, Tuple4.point 1 1 1⟩
      (Tuple4.point 0 0 0) (Tuple4.vector 0 0 (-1)) (Tuple4.vector 0 0 (-1))
      = Tuple4.point 0.1 0.1 0.1 := by
  have general : ∀ (m : Material) (light : PointLight) (point eyev normalv : Tuple4),
      ((light.position.sub point).normalize).dot normalv < 0 →
      m.lighting light point eyev normalv =
        Tuple4.point (m.color.x * light.intensity.x * m.ambient)
          (m.color.y * light.intensity.y * m.ambient)
          (m.color.z * light.intensity.z * m.ambient) := by
    intro m light point eyev normalv h
    simp only [Material.lighting]
    rw [if_pos h]
    simp only [Tuple4.add, Tuple4.mulScalar, Tuple4.point, Tuple4.mk.injEq]
    refine ⟨by ring, by ring, by ring, trivial⟩
  refine ⟨general, ?_⟩
  have hsqrt : Real.sqrt 100 = 10 := by
    rw [show (100 : ℝ) = 10 ^ 2 by norm_num]
    exact Real.sqrt_sq (by norm_num)
  have hbehind : (((PointLight.mk (Tuple4.point 0 0 10) (Tuple4.point 1 1 1)).position.sub
      (Tuple4.point 0 0 0)).normalize).dot (Tuple4.vector 0 0 (-1)) < 0 := by
    norm_num [Tuple4.sub, Tuple4.normalize, Tuple4.divScalar, Tuple4.mulScalar,
      Tuple4.magnitude, Tuple4.dot, Tuple4.point, Tuple4.vector, hsqrt]
  rw [general Material.default ⟨Tuple4.point 0 0 10, Tuple4.point 1 1 1⟩
    (Tuple4.point 0 0 0) (Tuple4.vector 0 0 (-1)) (Tuple4.vector 0 0 (-1)) hbehind]
  norm_num [Material.default, Tuple4.point]

/-- Witness for C5: the ambient-only formula instantiated at the default
material with the light at distance 5 behind the surface. -/
theorem lighting_light_behind_witness :
    Material.default.lighting ⟨Tuple4.point 0 0 5, Tuple4.point 1 1 1⟩
      (Tuple4.point 0 0 0) (Tuple4.vector 0 0 (-1)) (Tuple4.vector 0 0 (-1))
      = Tuple4.point 0.1 0.1 0.1 := by
  have hsqrt : Real.sqrt 25 = 5 := by
    rw [show (25 : ℝ) = 5 ^ 2 by norm_num]
    exact Real.sqrt_sq (by norm_num)
  have hbehind : (((PointLight.mk (Tuple4.point 0 0 5) (Tuple4.point 1 1 1)).position.sub
      (Tuple4.point 0 0 0)).normalize).dot (Tuple4.vector 0 0 (-1)) < 0 := by
    norm_num [Tuple4.sub, Tuple4.normalize, Tuple4.divScalar, Tuple4.mulScalar,
      Tuple4.magnitude, Tuple4.dot, Tuple4.point, Tuple4.vector, hsqrt]
  rw [lighting_light_behind.1 Material.default ⟨Tuple4.point 0 0 5, Tuple4.point 1 1 1⟩
    (Tuple4.point 0 0 0) (Tuple4.vector 0 0 (-1)) (Tuple4.vector 0 0 (-1)) hbehind]
  norm_num [Material.default, Tuple4.point]

/-- Square root of 4 evaluates to 2. -/
theorem sqrt_four : Real.sqrt 4 = 2 := by
  rw [show (4 : ℝ) = 2 ^ 2 by norm_num]
  exact Real.sqrt_sq (by norm_num)

/-- Claim C2: for every ray and every sphere with invertible transform,
intersect returns zero intersections when the discriminant
b^2 - 4ac of the object-space quadratic is negative, and otherwise
exactly two intersections t1 = (-b - sqrt(disc))/(2a) and
t2 = (-b + sqrt(disc))/(2a), in that order with t1 <= t2, both
referencing this sphere.  The remaining conjuncts check the spec's three
concrete examples: a ray from (0,0,-5) toward +z hits the unit sphere at
t = 4 and t = 6, from the origin at t = -1 and t = 1, and from (0,2,-5)
it misses. -/
theorem intersect_spec :
    (∀ (s : Sphere) (r : Ray) (minv : Matrix4x4), s.transform.inverse = some minv →
      ∀ a b c : ℝ,
        a = (r.transform minv).direction.dot (r.transform minv).direction →
        b = 2 * (r.transform minv).direction.dot ((r.transform minv).origin.sub s.origin) →
        c = ((r.transform minv).origin.sub s.origin).dot
              ((r.transform minv).origin.sub s.origin) - 1 →
        ((b * b - 4 * a * c < 0 → s.intersect r = some []) ∧
         (0 ≤ b * b - 4 * a * c →
           s.intersect r = some
             [⟨(-b - Real.sqrt (b * b - 4 * a * c)) / (2 * a), s⟩,
              ⟨(-b + Real.sqrt (b * b - 4 * a * c)) / (2 * a), s⟩] ∧
           (-b - Real.sqrt (b * b - 4 * a * c)) / (2 * a)
             ≤ (-b + Real.sqrt (b * b - 4 * a * c)) / (2 * a)))) ∧
    Sphere.new.intersect ⟨Tuple4.point 0 0 (-5), Tuple4.vector 0 0 1⟩
      = some [⟨4, Sphere.new⟩, ⟨6, Sphere.new⟩] ∧
    Sphere.new.intersect ⟨Tuple4.point 0 0 0, Tuple4.vector 0 0 1⟩
      = some [⟨-1, Sphere.new⟩, ⟨1, Sphere.new⟩] ∧
    Sphere.new.intersect ⟨Tuple4.point 0 2 (-5), Tuple4.vector 0 0 1⟩ = some [] := by
  refine ⟨?_, ?_, ?_, ?_⟩
  · intro s r minv h a b c ha hb hc
    have ha0 : 0 ≤ a := by
      rw [ha, Tuple4.dot]
      nlinarith [mul_self_nonneg (r.transform minv).direction.x,
        mul_self_nonneg (r.transform minv).direction.y,
        mul_self_nonneg (r.transform minv).direction.z,
        mul_self_nonneg (r.transform minv).direction.w]
    constructor
    · intro hneg
      simp only [Sphere.intersect, h]
      rw [← ha, ← hb, ← hc, if_pos hneg]
    · intro hpos
      constructor
      · simp only [Sphere.intersect, h]
        rw [← ha, ← hb, ← hc, if_neg (not_lt.mpr hpos)]
      · rcases eq_or_lt_of_le ha0 with heq | hlt
        · rw [← heq]
          norm_num
        · have hs := Real.sqrt_nonneg (b * b - 4 * a * c)
          have h2a : (0 : ℝ) < 2 * a := by linarith
          rw [div_le_div_iff_of_pos_right h2a]
          linarith
  · simp only [Sphere.intersect, Sphere.new, inverse_identity, Ray.transform,
      identity_mulTuple, Tuple4.sub, Tuple4.dot, Tuple4.point, Tuple4.vector]
    norm_num [sqrt_four]
  · simp only [Sphere.intersect, Sphere.new, inverse_identity, Ray.transform,
      identity_mulTuple, Tuple4.sub, Tuple4.dot, Tuple4.point, Tuple4.vector]
    norm_num [sqrt_four]
  · simp only [Sphere.intersect, Sphere.new, inverse_identity, Ray.transform,
      identity_mulTuple, Tuple4.sub, Tuple4.dot, Tuple4.point, Tuple4.vector]
    norm_num

/-- Witness for C2: the general quadratic characterization instantiated
on the untransformed sphere with the ray from the origin, discharging
the invertibility and discriminant-sign hypotheses concretely. -/
theorem intersect_spec_witness :
    Sphere.new.intersect ⟨Tuple4.point 0 0 0, Tuple4.vector 0 0 1⟩
      = some [⟨-1, Sphere.new⟩, ⟨1, Sphere.new⟩] := by
  have H := (intersect_spec.1 Sphere.new ⟨Tuple4.point 0 0 0, Tuple4.vector 0 0 1⟩
    Matrix4x4.identity (by simpa [Sphere.new] using inverse_identity) _ _ _ rfl rfl rfl).2
    (by norm_num [Ray.transform, identity_mulTuple, Tuple4.sub, Tuple4.dot,
      Tuple4.point, Tuple4.vector, Sphere.new])
  rw [H.1]
  norm_num [Ray.transform, identity_mulTuple, Tuple4.sub, Tuple4.dot,
    Tuple4.point, Tuple4.vector, Sphere.new, sqrt_four]

/-- Claim C6: preparing computations for a chosen intersection yields
point = ray.position(t), eye vector = -ray.direction, and the normal
from normal_at at that point; exactly when dot(normal, eye) < 0 the
inside flag is true and the stored normal is negated, otherwise inside
is false and the normal is unchanged. -/
theorem prepare_computations_spec (i : SphereIntersection) (r : Ray) (n : Tuple4)
    (h : i.sphere.normalAt (r.position i.t) = some n) :
    ∃ comps, PreparedComputations.new i r = some comps ∧
      comps.t = i.t ∧ comps.object = i.sphere ∧
      comps.point = r.position i.t ∧
      comps.eyev = r.direction.mulScalar (-1) ∧
      (n.dot (r.direction.mulScalar (-1)) < 0 →
        comps.inside = true ∧ comps.normalv = n.mulScalar (-1)) ∧
      (0 ≤ n.dot (r.direction.mulScalar (-1)) →
        comps.inside = false ∧ comps.normalv = n) := by
  by_cases hd : n.dot (r.direction.mulScalar (-1)) < 0
  · refine ⟨⟨i.t, i.sphere, r.position i.t, r.direction.mulScalar (-1),
      n.mulScalar (-1), true⟩, ?_, rfl, rfl, rfl, rfl,
      fun _ => ⟨rfl, rfl⟩, fun hge => absurd hd (not_lt.mpr hge)⟩
    simp only [PreparedComputations.new, h]
    rw [if_pos hd]
  · refine ⟨⟨i.t, i.sphere, r.position i.t, r.direction.mulScalar (-1), n, false⟩,
      ?_, rfl, rfl, rfl, rfl, fun hlt => absurd hlt hd, fun _ => ⟨rfl, rfl⟩⟩
    simp only [PreparedComputations.new, h]
    rw [if_neg hd]

/-- The transpose of the identity matrix is the identity. -/
theorem transpose_identity : Matrix4x4.identity.transpose = Matrix4x4.identity := rfl

/-- The normal of the untransformed unit sphere at (0,0,-1). -/
theorem normalAt_new_example :
    Sphere.new.normalAt (Ray.position ⟨Tuple4.point 0 0 (-5), Tuple4.vector 0 0 1⟩ 4)
      = some ⟨0, 0, -1, 0⟩ := by
  simp only [Sphere.normalAt, Sphere.new, inverse_identity, transpose_identity,
    identity_mulTuple]
  norm_num [Ray.position, Tuple4.add, Tuple4.mulScalar, Tuple4.sub, Tuple4.point,
    Tuple4.vector, Tuple4.normalize, Tuple4.divScalar, Tuple4.magnitude, Tuple4.dot,
    Real.sqrt_one]

/-- Witness for C6: the characterization applied to the hit at t = 4 of
the ray from (0,0,-5), whose eye and normal agree (outside hit). -/
theorem prepare_computations_spec_witness :
    ∃ comps, PreparedComputations.new ⟨4, Sphere.new⟩
        ⟨Tuple4.point 0 0 (-5), Tuple4.vector 0 0 1⟩ = some comps ∧
      comps.inside = false ∧ comps.normalv = ⟨0, 0, -1, 0⟩ := by
  obtain ⟨comps, hc, _, _, _, _, _, hpos⟩ :=
    prepare_computations_spec ⟨4, Sphere.new⟩ ⟨Tuple4.point 0 0 (-5), Tuple4.vector 0 0 1⟩
      ⟨0, 0, -1, 0⟩ normalAt_new_example
  have hge : (0 : ℝ) ≤ (Tuple4.mk 0 0 (-1) 0).dot
      ((Ray.mk (Tuple4.point 0 0 (-5)) (Tuple4.vector 0 0 1)).direction.mulScalar (-1)) := by
    norm_num [Tuple4.dot, Tuple4.vector, Tuple4.mulScalar]
  exact ⟨comps, hc, (hpos hge).1, (hpos hge).2⟩

/-- Membership in an insertion step of the t-ascending sort. -/
theorem mem_insertByT (i j : SphereIntersection) :
    ∀ l, (j ∈ insertByT i l ↔ j = i ∨ j ∈ l) := by
  intro l
  induction l with
  | nil => simp [insertByT]
  | cons k l ih =>
    rw [insertByT]
    by_cases h : i.t ≤ k.t
    · rw [if_pos h]
      simp [List.mem_cons]
    · rw [if_neg h]
      simp only [List.mem_cons, ih]
      tauto

/-- The t-ascending sort does not change membership. -/
theorem mem_sortByT (j : SphereIntersection) : ∀ l, (j ∈ sortByT l ↔ j ∈ l) := by
  intro l
  induction l with
  | nil => simp [sortByT]
  | cons k l ih =>
    rw [sortByT, mem_insertByT]
    simp [ih]

/-- Every intersection collected by the World::intersect loop comes from
some object's successful Sphere::intersect call. -/
theorem worldIntersectGo_mem (r : Ray) :
    ∀ (os : List Sphere) (l : List SphereIntersection),
      worldIntersectGo r os = some l →
      ∀ i ∈ l, ∃ o ∈ os, ∃ li, o.intersect r = some li ∧ i ∈ li := by
  intro os
  induction os with
  | nil =>
    intro l h i hi
    rw [worldIntersectGo, Option.some.injEq] at h
    subst h
    simp at hi
  | cons o os ih =>
    intro l h i hi
    rw [worldIntersectGo] at h
    rcases ho : o.intersect r with _ | li1
    · rw [ho] at h
      exact absurd h (by simp)
    · rcases hg : worldIntersectGo r os with _ | rest
      · rw [ho, hg] at h
        exact absurd h (by simp)
      · rw [ho, hg, Option.some.injEq] at h
        subst h
        rcases List.mem_append.mp hi with hi1 | hi2
        · exact ⟨o, by simp, li1, ho, hi1⟩
        · obtain ⟨o2, ho2, li2, hli2, hi3⟩ := ih rest hg i hi2
          exact ⟨o2, by simp [ho2], li2, hli2, hi3⟩

/-- A successful Sphere::intersect call presupposes an invertible
transform, and every returned intersection references the sphere. -/
theorem intersect_elements (s : Sphere) (r : Ray) (li : List SphereIntersection)
    (h : s.intersect r = some li) :
    (∃ minv, s.transform.inverse = some minv) ∧ ∀ i ∈ li, i.sphere = s := by
  rcases hinv : s.transform.inverse with _ | minv
  · simp only [Sphere.intersect, hinv] at h
    exact absurd h (by simp)
  · simp only [Sphere.intersect, hinv] at h
    refine ⟨⟨minv, rfl⟩, ?_⟩
    split at h
    · rw [Option.some.injEq] at h
      subst h
      intro i hi
      simp at hi
    · rw [Option.some.injEq] at h
      subst h
      intro i hi
      rcases List.mem_cons.mp hi with rfl | hi2
      · rfl
      · rcases List.mem_cons.mp hi2 with rfl | hi3
        · rfl
        · simp at hi3

/-- A sphere with an invertible transform always produces a normal. -/
theorem normalAt_some (s : Sphere) (p : Tuple4) (minv : Matrix4x4)
    (hinv : s.transform.inverse = some minv) : ∃ n, s.normalAt p = some n := by
  simp only [Sphere.normalAt, hinv]
  exact ⟨_, rfl⟩

/-- Preparing computations succeeds whenever the normal computation
succeeds. -/
theorem prepared_new_some (i : SphereIntersection) (r : Ray) (n : Tuple4)
    (hn : i.sphere.normalAt (r.position i.t) = some n) :
    ∃ comps, PreparedComputations.new i r = some comps := by
  by_cases hd : n.dot (r.direction.mulScalar (-1)) < 0
  · exact ⟨_, by simp only [PreparedComputations.new, hn]; rw [if_pos hd]⟩
  · exact ⟨_, by simp only [PreparedComputations.new, hn]; rw [if_neg hd]⟩

/-- The hit, when present, belongs to the collection. -/
theorem hit_mem (xs : List SphereIntersection) (i : SphereIntersection)
    (h : SphereIntersections.hit xs = some i) : i ∈ xs := by
  rw [SphereIntersections.hit] at h
  rcases hF : xs.filter (fun j => decide (0 ≤ j.t)) with _ | ⟨f, fs⟩
  · rw [hF] at h
    exact absurd h (by simp)
  · rw [hF, List.foldl_cons] at h
    have hstep : hitFold none f = some f := rfl
    rw [hstep] at h
    obtain ⟨rr, hr, L1, L2, hsplit, _, _⟩ := hitFold_go fs f
    rw [hr, Option.some.injEq] at h
    obtain rfl := h
    have hmemF : rr ∈ xs.filter (fun j => decide (0 ≤ j.t)) := by
      rw [hF, hsplit]
      simp
    exact (List.mem_filter.mp hmemF).1

/-- Claim C4: World::color_at returns black when the world's
intersections for the ray contain no hit, and also when a hit exists but
no light is configured: shade_hit yields no color in the absent-light
case and color_at substitutes black (Color::new(0,0,0), embedded as
Tuple4.point 0 0 0). -/
theorem color_at_spec (w : World) (r : Ray) (xs : List SphereIntersection)
    (h : w.intersect r = some xs) :
    (SphereIntersections.hit xs = none → w.colorAt r = some (Tuple4.point 0 0 0)) ∧
    (w.light = none → w.colorAt r = some (Tuple4.point 0 0 0)) := by
  constructor
  · intro hnone
    simp only [World.colorAt, h, hnone]
  · intro hlight
    rcases hhit : SphereIntersections.hit xs with _ | i
    · simp only [World.colorAt, h, hhit]
    · have hmem : i ∈ xs := hit_mem xs i hhit
      rcases hgo : worldIntersectGo r w.objects with _ | l
      · rw [World.intersect, hgo] at h
        exact absurd h (by simp)
      · rw [World.intersect, hgo, Option.some.injEq] at h
        subst h
        have hmem2 : i ∈ l := (mem_sortByT i l).mp hmem
        obtain ⟨o, homem, li, hli, hi⟩ := worldIntersectGo_mem r w.objects l hgo i hmem2
        obtain ⟨⟨minv, hminv⟩, hsph⟩ := intersect_elements o r li hli
        have hsphi : i.sphere = o := hsph i hi
        have hinv2 : i.sphere.transform.inverse = some minv := by rw [hsphi]; exact hminv
        obtain ⟨n, hn⟩ := normalAt_some i.sphere (r.position i.t) minv hinv2
        obtain ⟨comps, hcomps⟩ := prepared_new_some i r n hn
        have hint : w.intersect r = some (sortByT l) := by rw [World.intersect, hgo]
        simp only [World.colorAt, hint, hhit, hcomps, World.shadeHit, hlight, Option.getD]

/-- Witness for C4: the empty lightless world renders black. -/
theorem color_at_spec_witness :
    (World.mk [] none).colorAt ⟨Tuple4.point 0 0 0, Tuple4.vector 0 0 1⟩
      = some (Tuple4.point 0 0 0) :=
  (color_at_spec (World.mk [] none) ⟨Tuple4.point 0 0 0, Tuple4.vector 0 0 1⟩ [] rfl).1 rfl

/-- Claim C10: Tuple4::normalize performs an unguarded division by the
magnitude: on the zero vector (magnitude 0) the IEEE evaluation
self * (1.0/magnitude) multiplies each zero component by +inf, so every
component of the result is NaN and no error is signalled; consequently
Sphere::normal_at, at any world point that the inverse transform maps to
the sphere's object-space center, returns (without failing) a normal
whose components are all NaN. -/
theorem normalize_zero_nan :
    Tuple4.normalizeIEEE (Tuple4.vector 0 0 0)
      = ⟨F64x.nan, F64x.nan, F64x.nan, F64x.nan⟩ ∧
    (∀ (s : Sphere) (p : Tuple4) (minv : Matrix4x4),
      s.transform.inverse = some minv →
      minv.mulTuple p = Tuple4.point 0 0 0 →
      s.normalAtIEEE p = some ⟨F64x.nan, F64x.nan, F64x.nan, F64x.nan⟩) := by
  have hz : Tuple4.normalizeIEEE (⟨0, 0, 0, 0⟩ : Tuple4)
      = ⟨F64x.nan, F64x.nan, F64x.nan, F64x.nan⟩ := by
    simp only [Tuple4.normalizeIEEE, Tuple4.magnitude, Tuple4.dot]
    norm_num [F64x.recip, F64x.mulReal, Real.sqrt_zero]
  constructor
  · rw [Tuple4.vector]
    exact hz
  · intro s p minv hinv hcenter
    have hsub : (Tuple4.point 0 0 0).sub (Tuple4.point 0 0 0) = (⟨0, 0, 0, 0⟩ : Tuple4) := by
      norm_num [Tuple4.sub, Tuple4.point]
    have hw : minv.transpose.mulTuple (⟨0, 0, 0, 0⟩ : Tuple4) = (⟨0, 0, 0, 0⟩ : Tuple4) := by
      norm_num [Matrix4x4.mulTuple]
    simp only [Sphere.normalAtIEEE, hinv, hcenter, hsub, hw]
    rw [hz]

/-- Witness for C10: the untransformed unit sphere queried at the world
origin (which its identity inverse transform maps to the object-space
center) yields an all-NaN normal without failing. -/
theorem normalize_zero_nan_witness :
    Sphere.new.normalAtIEEE (Tuple4.point 0 0 0)
      = some ⟨F64x.nan, F64x.nan, F64x.nan, F64x.nan⟩ :=
  normalize_zero_nan.2 Sphere.new (Tuple4.point 0 0 0) Matrix4x4.identity
    (by simpa [Sphere.new] using inverse_identity) (identity_mulTuple (Tuple4.point 0 0 0))
